import Mathlib

/-!
Verification of the cloud-file-store handlers (presign_upload, presign_download,
list_files, delete_file, record_download) against their natural-language
specification.  The Python handlers are shallowly embedded: Python strings are
lists of characters, dictionaries with fixed key usage are records, external
service calls (S3, DynamoDB, uuid, clock) are oracle data supplied through a
world record, and each handler is a pure function from world and event to a
response plus an effect trace.
-/

set_option maxRecDepth 4000

/-- Python strings are modelled as lists of characters. -/
abbrev Str := List Char

/-- Python `str.lower()` (ASCII range, which is all the code compares). -/
def lowerStr (s : Str) : Str := s.map Char.toLower

/-- Python string truthiness: the empty string is falsy. -/
def strTruthy (s : Str) : Bool := !s.isEmpty

/-- Python `x or y` on an optional string: `None` and `""` are falsy and are
skipped; the result is `none` only when every operand is falsy.  `truthyO a`
normalizes a falsy optional to `none`. -/
def truthyO (a : Option Str) : Option Str :=
  match a with
  | some s => if s.isEmpty then none else some s
  | none => none

/-- Python `a or b` for two optional strings. -/
def pyOrS (a b : Option Str) : Option Str :=
  match truthyO a with
  | some s => some s
  | none => b

/-- Python `str.strip()` on the left side only. -/
def stripLeft (s : Str) : Str := s.dropWhile (fun c => c.isWhitespace)

/-- Python `str.strip()`: remove leading and trailing whitespace. -/
def strip (s : Str) : Str :=
  ((stripLeft s).reverse.dropWhile (fun c => c.isWhitespace)).reverse

/-- Python `str.strip(chars)`: remove leading and trailing characters drawn
from the given set (used by the code as `raw.strip("[]")`). -/
def stripChars (cs : List Char) (s : Str) : Str :=
  ((s.dropWhile (fun c => cs.contains c)).reverse.dropWhile
    (fun c => cs.contains c)).reverse

/-- Python `str.replace(old, "")` for a single character. -/
def removeChar (c : Char) (s : Str) : Str := s.filter (fun d => d != c)

/-- Split a character list at every character satisfying `p`, keeping empty
pieces, exactly like Python `str.split(sep)` splits at every separator. -/
def splitPred (p : Char → Bool) : Str → List Str
  | [] => [[]]
  | c :: cs =>
    if p c then [] :: splitPred p cs
    else
      match splitPred p cs with
      | [] => [[c]]
      | t :: ts => (c :: t) :: ts

/-- Python `str.split(",")`. -/
def pySplitComma (s : Str) : List Str := splitPred (fun c => c == ',') s

/-- Python `str.split()` (no argument): split on whitespace runs and drop
empty tokens. -/
def pySplitWs (s : Str) : List Str :=
  (splitPred (fun c => c.isWhitespace) s).filter (fun t => !t.isEmpty)

/-- The Python list comprehension `[g.strip() for g in parts if g.strip()]`. -/
def stripFilter (parts : List Str) : List Str :=
  (parts.map strip).filter (fun t => !t.isEmpty)

/-- Join tokens with a single separator character (used to build the
comma-separated and space-separated claim encodings). -/
def joinSep (sep : Char) : List Str → Str
  | [] => []
  | [g] => g
  | g :: g₂ :: gs => g ++ sep :: joinSep sep (g₂ :: gs)

/-- Whitespace skipping inside the JSON-array model. -/
def dropWs (s : Str) : Str := s.dropWhile (fun c => c.isWhitespace)

/-- True when the remaining input is only whitespace. -/
def isBlank (s : Str) : Bool := (dropWs s).isEmpty

/-- Scan a JSON string literal body up to the closing quote (the handlers
only ever receive group names without escapes, so escape sequences are not
modelled). -/
def scanStr : Str → Option (Str × Str)
  | [] => none
  | c :: cs =>
    if c = '"' then some ([], cs)
    else
      match scanStr cs with
      | none => none
      | some (t, r) => some (c :: t, r)

/-- Parse `element ("," element)* "]" ws*` of a JSON array of string
literals; fuel bounds the number of elements. -/
def parseTail : Nat → Str → Option (List Str)
  | 0, _ => none
  | fuel + 1, s =>
    match dropWs s with
    | [] => none
    | c :: r =>
      if c = '"' then
        match scanStr r with
        | none => none
        | some (t, rest) =>
          match dropWs rest with
          | [] => none
          | d :: r₂ =>
            if d = ']' then (if isBlank r₂ then some [t] else none)
            else if d = ',' then
              match parseTail fuel r₂ with
              | none => none
              | some ts => some (t :: ts)
            else none
      else none

/-- Model of Python `json.loads` restricted to JSON arrays of plain string
literals, the only shape the group-claims parsing exercises; every other
input is reported as a parse failure. -/
def jsonLoads (s : Str) : Option (List Str) :=
  match dropWs s with
  | [] => none
  | c :: r =>
    if c = '[' then
      match dropWs r with
      | [] => parseTail (r.length + 1) r
      | d :: r₂ =>
        if d = ']' then (if isBlank r₂ then some [] else none)
        else parseTail (r.length + 1) r
    else none

/-- JSON-array encoding of a group list: `["g1","g2"]`. -/
def quoteTok (g : Str) : Str := '"' :: g ++ ['"']

/-- The JSON-array-shaped string encoding of a group set. -/
def jsonEnc (gs : List Str) : Str :=
  '[' :: joinSep ',' (gs.map quoteTok) ++ [']']

/-- The comma-separated string encoding of a group set. -/
def commaEnc (gs : List Str) : Str := joinSep ',' gs

/-- The whitespace-separated string encoding of a group set. -/
def wsEnc (gs : List Str) : Str := joinSep ' ' gs

/-- A well-formed group name: non-empty and free of whitespace, commas,
quotes, brackets and backslashes, so that each claim encoding is faithful.
Actual identity-provider group names satisfy this. -/
def validTok (g : Str) : Prop :=
  g ≠ [] ∧ ∀ c ∈ g, c.isWhitespace = false ∧ c ≠ ',' ∧ c ≠ '"' ∧
    c ≠ '[' ∧ c ≠ ']' ∧ c ≠ '\\'

instance (g : Str) : Decidable (validTok g) := by
  unfold validTok; infer_instance

/-- Every token of a group list is well formed. -/
def validToks (gs : List Str) : Prop := ∀ g ∈ gs, validTok g

instance (gs : List Str) : Decidable (validToks gs) := by
  unfold validToks; infer_instance

/-! ## String constants used by the handlers -/

def sAdmin : Str := "admin".data
def sUploader : Str := "uploader".data
def sViewer : Str := "viewer".data
def sUnknownUser : Str := "unknown-user".data
def sUnknown : Str := "unknown".data
def sAnonymous : Str := "anonymous".data
def sTrue : Str := "true".data
def kError : Str := "error".data
def kReason : Str := "reason".data
def kFileId : Str := "fileId".data
def kS3Key : Str := "s3Key".data
def kKey : Str := "key".data
def kUrl : Str := "url".data
def kExpiresIn : Str := "expiresIn".data
def kUploadedBy : Str := "uploadedBy".data
def kUploadedAt : Str := "uploadedAt".data
def kFilename : Str := "filename".data
def kDeleted : Str := "deleted".data
def kDownloadId : Str := "downloadId".data
def kVersionId : Str := "versionId".data
def kRequestedBy : Str := "requestedBy".data
def kRequestedAt : Str := "requestedAt".data
def kIp : Str := "ip".data
def kUserAgent : Str := "userAgent".data
def kAsAttachment : Str := "asAttachment".data
def kDownloadName : Str := "downloadName".data
def kTtlSeconds : Str := "ttlSeconds".data
def kRequesterGroups : Str := "requesterGroups".data
def kUserGroups : Str := "userGroups".data
def kRecordCreated : Str := "recordCreated".data
def kDetails : Str := "details".data
def mUnauthMissing : Str := "unauthenticated - missing Cognito claims".data
def mForbiddenUpload : Str := "forbidden - requires uploader or admin group".data
def mForbiddenDownload : Str := "forbidden - requires viewer/uploader/admin group".data
def mForbiddenList : Str := "forbidden - requires viewer/uploader/admin".data
def mUnauthNoGroups : Str := "unauthenticated - no groups".data
def mFilenameRequired : Str := "filename is required".data
def mKeyRequired : Str := "query parameter key is required".data
def mObjectNotFound : Str := "object not found".data
def mMissingFileId : Str := "missing path parameter fileId".data
def mAdminOnly : Str := "admin only".data
def mMetaNotFound : Str := "file metadata not found".data
def mMetaMissingKey : Str := "file metadata missing s3Key".data
def mMetaDeleteFailed : Str := "failed to delete metadata: ".data
def mForbidden : Str := "forbidden".data
def mNotInAllowed : Str := "user not in allowed groups".data
def mInvalidJson : Str := "invalid JSON body".data
def mS3KeyRequired : Str := "s3Key (or key) is required in body".data
def mAwsError : Str := "AWS error".data

/-! ## Claims model and the two claims normalizers -/

/-- Value of a groups claim in the identity-claims dictionary: absent, a
string, or a JSON sequence of strings. -/
inductive GroupsVal where
  | gNone : GroupsVal
  | gStr (s : Str) : GroupsVal
  | gList (xs : List Str) : GroupsVal
deriving DecidableEq

/-- Python truthiness of a groups claim value (`None`, `""` and `[]` are
falsy). -/
def gTruthy : GroupsVal → Bool
  | .gNone => false
  | .gStr s => !s.isEmpty
  | .gList xs => !xs.isEmpty

/-- Python `a or b` over groups claim values. -/
def pyOrG (a b : GroupsVal) : GroupsVal := if gTruthy a then a else b

/-- Python `a or d` where `d` is a default string. -/
def pyOrD (a : Option Str) (d : Str) : Str :=
  match truthyO a with
  | some s => s
  | none => d

/-- The identity-claims mapping, restricted to the keys the handlers read;
an absent key is `none` / `gNone`, so the empty record models a request with
no claims at all. -/
structure Claims where
  email : Option Str
  cognitoUsername : Option Str
  sub : Option Str
  username : Option Str
  cognitoGroups : GroupsVal
  groups : GroupsVal
  customGroups : GroupsVal
deriving DecidableEq

/-- A request carrying no identity claims at all. -/
def noClaims : Claims := ⟨none, none, none, none, .gNone, .gNone, .gNone⟩

/-- `claims.get("email") or claims.get("cognito:username") or
claims.get("sub") or "unknown-user"` (presign_upload, presign_download,
list_files, delete_file). -/
def usernameU (c : Claims) : Str :=
  pyOrD (pyOrS c.email (pyOrS c.cognitoUsername c.sub)) sUnknownUser

/-- `claims.get("cognito:groups") or claims.get("groups") or ""`. -/
def groupsRawU (c : Claims) : GroupsVal :=
  pyOrG c.cognitoGroups (pyOrG c.groups (.gStr []))

/-- Groups parsing of presign_upload / presign_download / list_files /
delete_file: a list is used as-is, a non-empty string is split on commas
with tokens stripped and empty tokens dropped. -/
def parseGroupsU (g : GroupsVal) : List Str :=
  match g with
  | .gList xs => xs
  | .gNone => []
  | .gStr s => if s.isEmpty then [] else stripFilter (pySplitComma s)

/-- Normalized identity of the upload-family handlers. -/
structure CogInfo where
  username : Str
  email : Option Str
  groups : List Str
deriving DecidableEq

/-- `_get_cognito_info_from_event` of presign_upload, presign_download,
list_files and delete_file, at the claims level. -/
def cognitoInfoU (c : Claims) : CogInfo :=
  ⟨usernameU c, c.email, parseGroupsU (groupsRawU c)⟩

/-- record_download username: `claims.get("cognito:username") or
claims.get("username") or claims.get("email") or claims.get("sub")`; no
sentinel default. -/
def usernameRD (c : Claims) : Option Str :=
  pyOrS c.cognitoUsername (pyOrS c.username (pyOrS c.email c.sub))

/-- record_download raw groups: `claims.get("cognito:groups") or
claims.get("groups") or claims.get("custom:groups") or ""`. -/
def groupsRawRD (c : Claims) : GroupsVal :=
  pyOrG c.cognitoGroups (pyOrG c.groups (pyOrG c.customGroups (.gStr [])))

/-- record_download groups parsing: only strings are parsed (a sequence
value fails the `isinstance(raw_groups, str)` test and leaves the groups
empty); a stripped string that is bracketed is JSON-parsed with a
strip-brackets/drop-quotes/whitespace-split fallback; otherwise it is split
on commas when one occurs, else on whitespace. -/
def parseGroupsRD (g : GroupsVal) : List Str :=
  match g with
  | .gList _ => []
  | .gNone => []
  | .gStr s =>
    if s.isEmpty then []
    else
      let raw := strip s
      if raw.head? == some '[' && raw.getLast? == some ']' then
        match jsonLoads raw with
        | some xs => xs
        | none => pySplitWs (removeChar '"' (stripChars (['['] ++ [']']) raw))
      else if raw.contains ',' then stripFilter (pySplitComma raw)
      else stripFilter (pySplitWs raw)

/-- Normalized identity of the record_download handler. -/
structure RdInfo where
  username : Option Str
  email : Option Str
  sub : Option Str
  groups : List Str
  is_admin : Bool
deriving DecidableEq

/-- `_get_cognito_info_from_event` of record_download, at the claims
level. -/
def cognitoInfoRD (c : Claims) : RdInfo :=
  let gs := parseGroupsRD (groupsRawRD c)
  ⟨usernameRD c, c.email, c.sub, gs, (gs.map lowerStr).contains sAdmin⟩

/-! ## Access decision -/

/-- `_has_any_group` (presign_upload, presign_download, list_files): deny on
an empty caller group set, otherwise allow exactly when the lowercased
caller set meets the lowercased allowed set. -/
def hasAnyGroup (userGroups allowed : List Str) : Bool :=
  if userGroups.isEmpty then false
  else (userGroups.map lowerStr).any (fun g => (allowed.map lowerStr).contains g)

/-- `_is_admin` (delete_file): deny on an empty group list, otherwise allow
exactly when some group lowercases to admin. -/
def isAdmin (groups : List Str) : Bool :=
  if groups.isEmpty then false
  else groups.any (fun g => lowerStr g == sAdmin)

/-- record_download RBAC test: `set(lowered groups) & {viewer, uploader,
admin}` nonempty. -/
def rdAllowed (groupsLower : List Str) : Bool :=
  groupsLower.any (fun g => g == sViewer || g == sUploader || g == sAdmin)

/-! ## JSON values, responses, events, worlds and effect traces -/

/-- JSON values appearing in response bodies and store items. -/
inductive JVal where
  | s (v : Str) : JVal
  | b (v : Bool) : JVal
  | n (v : Nat) : JVal
  | null : JVal
  | arr (vs : List JVal) : JVal
  | obj (fields : List (Str × JVal)) : JVal

/-- Python truthiness of a JSON value (`bool(x)`). -/
def jTruthy : JVal → Bool
  | .s v => !v.isEmpty
  | .b v => v
  | .n v => v != 0
  | .null => false
  | .arr vs => !vs.isEmpty
  | .obj fs => !fs.isEmpty

/-- An optional string rendered into a JSON body (`None` serializes to
null). -/
def jOpt (o : Option Str) : JVal :=
  match o with
  | some v => .s v
  | none => .null

/-- `_resp(status, body)`: all handlers attach the same constant JSON/CORS
headers, so a response is modelled by its status code and body. -/
structure Resp where
  status : Nat
  body : JVal

/-- A DynamoDB item, in insertion order of its keys. -/
abbrev Item := List (Str × JVal)

/-! ### presign_upload -/

/-- Outcome of `json.loads` on the upload request body: the parsed
dictionary (restricted to the one key read), or a parse failure that raises
and is caught by the outer handler. -/
inductive UpBody where
  | udict (filename : Option Str) : UpBody
  | umalformed (msg : Str) : UpBody
deriving DecidableEq

/-- presign_upload event: identity claims plus request body.  An absent
body is `udict none` (the code substitutes the empty JSON object). -/
structure UpEvent where
  claims : Claims
  body : UpBody
deriving DecidableEq

/-- presign_upload oracle data: configuration and backend outcomes. -/
structure UpWorld where
  ttl : Nat
  uuid : Str
  now : Str
  url : Str
  putOk : Bool
  putErr : Str
deriving DecidableEq

/-- Effects of one presign_upload run. -/
structure UpEffects where
  presignCalled : Bool
  putAttempted : Option Item

def noUpEffects : UpEffects := ⟨false, none⟩

/-- Handler of POST issue-upload-url (src/presign_upload/app.py). -/
def presignUploadHandler (w : UpWorld) (e : UpEvent) : Resp × UpEffects :=
  let cog := cognitoInfoU e.claims
  let userEmail := pyOrD (pyOrS cog.email (some cog.username)) sUnknownUser
  if cog.username == sUnknownUser && userEmail.isEmpty && cog.groups.isEmpty
  then (⟨401, .obj [(kError, .s mUnauthMissing)]⟩, noUpEffects)
  else if !hasAnyGroup cog.groups [sAdmin, sUploader] then
    (⟨403, .obj [(kError, .s mForbiddenUpload)]⟩, noUpEffects)
  else
    match e.body with
    | .umalformed msg => (⟨500, .obj [(kError, .s msg)]⟩, noUpEffects)
    | .udict filename =>
      match truthyO filename with
      | none => (⟨400, .obj [(kError, .s mFilenameRequired)]⟩, noUpEffects)
      | some fn =>
        let key := "uploads/".data ++ w.uuid ++ '/' :: fn
        let item : Item :=
          [(kFileId, .s w.uuid), (kS3Key, .s key), (kFilename, .s fn),
           (kUploadedAt, .s w.now), (kUploadedBy, .s userEmail)]
        if w.putOk then
          (⟨200, .obj [(kFileId, .s w.uuid), (kKey, .s key), (kUrl, .s w.url),
             (kExpiresIn, .n w.ttl), (kUploadedBy, .s userEmail)]⟩,
           ⟨true, some item⟩)
        else (⟨500, .obj [(kError, .s w.putErr)]⟩, ⟨true, some item⟩)

/-! ### list_files -/

/-- One scanned metadata item, restricted to the keys the handler reads. -/
structure LfItem where
  fileId : Option Str
  s3Key : Option Str
  filename : Option Str
  uploadedAt : Option Str
  uploadedBy : Option Str
deriving DecidableEq

/-- list_files event. -/
structure LfEvent where
  claims : Claims
deriving DecidableEq

/-- list_files oracle data: the table scan result or its failure. -/
structure LfWorld where
  scanOk : Bool
  scanErr : Str
  items : List LfItem
deriving DecidableEq

/-- Projection of one scanned item into the response body. -/
def lfProject (it : LfItem) : JVal :=
  .obj [(kFileId, jOpt it.fileId), (kKey, jOpt it.s3Key),
        (kFilename, jOpt it.filename), (kUploadedAt, jOpt it.uploadedAt),
        (kUploadedBy, .s (it.uploadedBy.getD sUnknown))]

/-- Handler of GET list-files (src/list_files/app.py). -/
def listFilesHandler (w : LfWorld) (e : LfEvent) : Resp :=
  let cog := cognitoInfoU e.claims
  if cog.groups.isEmpty then ⟨401, .obj [(kError, .s mUnauthNoGroups)]⟩
  else if !hasAnyGroup cog.groups [sAdmin, sUploader, sViewer] then
    ⟨403, .obj [(kError, .s mForbiddenList)]⟩
  else if w.scanOk then ⟨200, .arr (w.items.map lfProject)⟩
  else ⟨500, .obj [(kError, .s w.scanErr)]⟩

/-! ### delete_file -/

/-- Path parameters of the delete request. -/
structure PathParams where
  fileId : Option Str
  id : Option Str
deriving DecidableEq

/-- delete_file event; `pathParameters` may be absent entirely. -/
structure DelEvent where
  claims : Claims
  pathParameters : Option PathParams
deriving DecidableEq

/-- The stored metadata item as read by delete_file. -/
structure DelItem where
  s3Key : Option Str
deriving DecidableEq

/-- Outcome of the metadata `get_item` call. -/
inductive GetRes where
  | found (item : DelItem) : GetRes
  | absent : GetRes
  | failed (msg : Str) : GetRes
deriving DecidableEq

/-- delete_file oracle data. -/
structure DelWorld where
  get : GetRes
  s3DeleteOk : Bool
  ddbDeleteOk : Bool
  ddbErr : Str
deriving DecidableEq

/-- Effects of one delete_file run. -/
structure DelEffects where
  s3DeleteAttempted : Bool
  ddbDeleteAttempted : Bool
deriving DecidableEq

def noDelEffects : DelEffects := ⟨false, false⟩

/-- Handler of DELETE delete-file (src/delete_file/app.py).  The path
parameter is validated before the admin check, and the S3 deletion failure
is swallowed while the metadata deletion failure is fatal. -/
def deleteFileHandler (w : DelWorld) (e : DelEvent) : Resp × DelEffects :=
  let pp := e.pathParameters.getD ⟨none, none⟩
  match pyOrS pp.fileId (truthyO pp.id) with
  | none => (⟨400, .obj [(kError, .s mMissingFileId)]⟩, noDelEffects)
  | some fid =>
    let cog := cognitoInfoU e.claims
    if !isAdmin cog.groups then
      (⟨403, .obj [(kError, .s mAdminOnly)]⟩, noDelEffects)
    else
      match w.get with
      | .failed msg => (⟨500, .obj [(kError, .s msg)]⟩, noDelEffects)
      | .absent =>
        (⟨404, .obj [(kError, .s mMetaNotFound), (kFileId, .s fid)]⟩,
         noDelEffects)
      | .found item =>
        match truthyO item.s3Key with
        | none =>
          (⟨500, .obj [(kError, .s mMetaMissingKey), (kFileId, .s fid)]⟩,
           noDelEffects)
        | some s3Key =>
          if w.ddbDeleteOk then
            (⟨200, .obj [(kDeleted, .b true), (kFileId, .s fid),
               (kS3Key, .s s3Key)]⟩, ⟨true, true⟩)
          else
            (⟨500, .obj [(kError, .s (mMetaDeleteFailed ++ w.ddbErr)),
               (kFileId, .s fid)]⟩, ⟨true, true⟩)

/-! ### presign_download -/

/-- Hex digit value, for percent-decoding. -/
def hexDigit (c : Char) : Option Nat :=
  let n := c.toNat
  if 48 ≤ n && n ≤ 57 then some (n - 48)
  else if 65 ≤ n && n ≤ 70 then some (n - 55)
  else if 97 ≤ n && n ≤ 102 then some (n - 87)
  else none

/-- `urllib.parse.unquote` at the byte-per-character level: decode every
`%XX` escape, leave malformed escapes untouched (multi-byte UTF-8
recombination is outside the keys this system handles). -/
def unquote : Str → Str
  | [] => []
  | '%' :: a :: b :: rest =>
    (match hexDigit a, hexDigit b with
     | some x, some y => Char.ofNat (16 * x + y) :: unquote rest
     | _, _ => '%' :: unquote (a :: b :: rest))
  | c :: rest => c :: unquote rest

/-- Query parameters of the download request, restricted to the keys
read. -/
structure QueryParams where
  key : Option Str
  versionId : Option Str
  downloadName : Option Str
  asAttachment : Option Str
deriving DecidableEq

/-- Request headers, after the lowercasing normalization of
`_get_ip_and_ua`, restricted to the keys read. -/
structure Headers where
  xForwardedFor : Option Str
  userAgent : Option Str
deriving DecidableEq

/-- Client IP extraction of `_get_ip_and_ua`. -/
def getIp (h : Option Headers) : Str :=
  let ip := (h.getD ⟨none, none⟩).xForwardedFor.getD []
  if ip.isEmpty then [] else strip ((pySplitComma ip).headD [])

/-- User-agent extraction of `_get_ip_and_ua`. -/
def getUa (h : Option Headers) : Str :=
  (h.getD ⟨none, none⟩).userAgent.getD []

/-- presign_download event. -/
structure DnEvent where
  claims : Claims
  queryStringParameters : Option QueryParams
  headers : Option Headers
deriving DecidableEq

/-- Outcome of the `head_object` existence probe. -/
inductive HeadRes where
  | ok : HeadRes
  | notFound : HeadRes
  | clientErr (msg : Str) : HeadRes
deriving DecidableEq

/-- presign_download oracle data; `checkExists` is the CHECK_EXISTS
configuration toggle. -/
structure DnWorld where
  checkExists : Bool
  ttl : Nat
  head : HeadRes
  url : Str
  uuid : Str
  now : Str
  putOk : Bool
deriving DecidableEq

/-- Effects of one presign_download run. -/
structure DnEffects where
  headCalled : Bool
  presignCalled : Bool
  historyAttempted : Option Item
  historyWriteOk : Bool

def noDnEffects : DnEffects := ⟨false, false, none, false⟩

/-- Success tail of presign_download: build the URL, attempt the
best-effort audit write (its failure is swallowed), and answer 200. -/
def dnIssue (w : DnWorld) (cog : CogInfo) (hs : Option Headers) (key : Str)
    (versionId downloadName : Option Str) (asAtt headCalled : Bool) :
    Resp × DnEffects :=
  let requestedBy := pyOrD (pyOrS cog.email (some cog.username)) sUnknown
  let item : Item :=
    [(kDownloadId, .s w.uuid), (kS3Key, .s key),
     (kVersionId, .s (versionId.getD [])), (kRequestedBy, .s requestedBy),
     (kRequestedAt, .s w.now), (kIp, .s (getIp hs)),
     (kUserAgent, .s (getUa hs)), (kAsAttachment, .b asAtt),
     (kDownloadName, .s (downloadName.getD [])), (kTtlSeconds, .n w.ttl),
     (kUserGroups, .arr (cog.groups.map JVal.s))]
  (⟨200, .obj [(kUrl, .s w.url), (kExpiresIn, .n w.ttl)]⟩,
   ⟨headCalled, true, some item, w.putOk⟩)

/-- Handler of GET issue-download-url (src/presign_download/app.py). -/
def presignDownloadHandler (w : DnWorld) (e : DnEvent) : Resp × DnEffects :=
  let cog := cognitoInfoU e.claims
  if cog.username == sUnknownUser && (truthyO cog.email).isNone &&
      cog.groups.isEmpty then
    (⟨401, .obj [(kError, .s mUnauthMissing)]⟩, noDnEffects)
  else if !hasAnyGroup cog.groups [sAdmin, sUploader, sViewer] then
    (⟨403, .obj [(kError, .s mForbiddenDownload)]⟩, noDnEffects)
  else
    let params := e.queryStringParameters.getD ⟨none, none, none, none⟩
    match truthyO params.key with
    | none => (⟨400, .obj [(kError, .s mKeyRequired)]⟩, noDnEffects)
    | some rawKey =>
      let key := unquote rawKey
      let versionId := truthyO params.versionId
      let asAtt := lowerStr (params.asAttachment.getD sTrue) == sTrue
      let downloadName := truthyO params.downloadName
      if w.checkExists then
        match w.head with
        | .notFound =>
          (⟨404, .obj [(kError, .s mObjectNotFound), (kKey, .s key)]⟩,
           ⟨true, false, none, false⟩)
        | .clientErr msg =>
          (⟨500, .obj [(kError, .s msg)]⟩, ⟨true, false, none, false⟩)
        | .ok => dnIssue w cog e.headers key versionId downloadName asAtt true
      else dnIssue w cog e.headers key versionId downloadName asAtt false

/-! ### record_download -/

/-- Python `a or b` over optional JSON body values. -/
def truthyJ (a : Option JVal) : Option JVal :=
  match a with
  | some v => if jTruthy v then some v else none
  | none => none

/-- Python `a or b` for two optional JSON values. -/
def pyOrJ (a b : Option JVal) : Option JVal :=
  match truthyJ a with
  | some v => some v
  | none => b

/-- Outcome of `json.loads` on the record_download body: the parsed fields,
or a parse failure (answered 400 by the handler itself). -/
inductive RdBody where
  | rdOk (s3Key key fileKey versionId downloadName asAttachment : Option JVal) :
      RdBody
  | rdBad : RdBody

/-- record_download event; a present `jwtClaims` models the newer
`authorizer.jwt.claims` shape carrying a non-empty claims dictionary. -/
structure RdEvent where
  jwtClaims : Option Claims
  claims : Claims
  body : RdBody

/-- record_download oracle data. -/
structure RdWorld where
  ttl : Nat
  uuid : Str
  now : Str
  putOk : Bool
  putErr : Str
deriving DecidableEq

/-- Effects of one record_download run. -/
structure RdEffects where
  putAttempted : Option Item
  putSucceeded : Bool

def noRdEffects : RdEffects := ⟨none, false⟩

/-- Handler of POST record-download (src/record_download/app.py).  The
audit write here is the primary effect: its failure is a 500. -/
def recordDownloadHandler (w : RdWorld) (e : RdEvent) : Resp × RdEffects :=
  let claims := match e.jwtClaims with | some c => c | none => e.claims
  let ident := cognitoInfoRD claims
  let userEmail := pyOrD (pyOrS ident.email ident.username) sAnonymous
  let groupsL := ident.groups.map lowerStr
  if !rdAllowed groupsL then
    (⟨403, .obj [(kError, .s mForbidden), (kReason, .s mNotInAllowed)]⟩,
     noRdEffects)
  else
    match e.body with
    | .rdBad => (⟨400, .obj [(kError, .s mInvalidJson)]⟩, noRdEffects)
    | .rdOk s3k k fk vid dn asA =>
      match truthyJ (pyOrJ s3k (pyOrJ k fk)) with
      | none => (⟨400, .obj [(kError, .s mS3KeyRequired)]⟩, noRdEffects)
      | some sk =>
        let versionId := match truthyJ vid with | some v => v | none => .s []
        let downloadName := match truthyJ dn with | some v => v | none => .s []
        let asAtt := jTruthy (asA.getD (.b true))
        let item : Item :=
          [(kDownloadId, .s w.uuid), (kS3Key, sk), (kVersionId, versionId),
           (kRequestedBy, .s userEmail), (kRequestedAt, .s w.now),
           (kAsAttachment, .b asAtt), (kDownloadName, downloadName),
           (kTtlSeconds, .n w.ttl),
           (kRequesterGroups, .arr (groupsL.map JVal.s))]
        if w.putOk then
          (⟨201, .obj [(kRecordCreated, .b true), (kDownloadId, .s w.uuid),
             (kS3Key, sk)]⟩, ⟨some item, true⟩)
        else
          (⟨500, .obj [(kError, .s mAwsError), (kDetails, .s w.putErr)]⟩,
           ⟨some item, false⟩)

/-! ### Sample data and encoding helpers used in concrete statements -/

/-- Claims carrying only a groups value under the cognito-groups key. -/
def mkClaims (g : GroupsVal) : Claims := ⟨none, none, none, none, g, .gNone, .gNone⟩

def sA : Str := "a".data
def sB : Str := "b".data
def sAdminCap : Str := "Admin".data
def sEmailEx : Str := "me@example.com".data
def sUserEx : Str := "user-1".data
def sSubEx : Str := "sub-1".data
def sFileEx : Str := "f-123".data
def sKeyEx : Str := "uploads/f-123/report.pdf".data
def sUrlEx : Str := "https://signed.example/u".data
def sUuidEx : Str := "uuid-1".data
def sNowEx : Str := "2026-01-01T00:00:00".data
def sErrEx : Str := "boom".data
def demoCommaStr : Str := " a , ,b ".data

/-- Claims of an authenticated caller in the viewer group. -/
def viewerClaims : Claims :=
  ⟨some sEmailEx, some sUserEx, some sSubEx, none, .gList [sViewer], .gNone, .gNone⟩

/-- Claims of an authenticated admin caller. -/
def adminClaims : Claims :=
  ⟨some sEmailEx, some sUserEx, some sSubEx, none, .gList [sAdminCap], .gNone, .gNone⟩

/-- Tokens free of whitespace characters. -/
def noWs (g : Str) : Prop := ∀ c ∈ g, c.isWhitespace = false

/-! ## Lemmas about the string machinery -/

theorem splitPred_ne_nil (p : Char → Bool) (s : Str) : splitPred p s ≠ [] := by
  induction s with
  | nil => simp [splitPred]
  | cons c cs ih =>
    simp only [splitPred]
    split
    · simp
    · split
      · simp
      · simp

theorem splitPred_no_sep (p : Char → Bool) (g : Str)
    (h : ∀ c ∈ g, p c = false) : splitPred p g = [g] := by
  induction g with
  | nil => rfl
  | cons c cs ih =>
    have hc : p c = false := h c (by simp)
    have ih₂ := ih (fun d hd => h d (by simp [hd]))
    simp [splitPred, hc, ih₂]

theorem splitPred_append_sep (p : Char → Bool) (sep : Char) (g r : Str)
    (hg : ∀ c ∈ g, p c = false) (hsep : p sep = true) :
    splitPred p (g ++ sep :: r) = g :: splitPred p r := by
  induction g with
  | nil => simp [splitPred, hsep]
  | cons c cs ih =>
    have hc : p c = false := hg c (by simp)
    have ih₂ := ih (fun d hd => hg d (by simp [hd]))
    simp only [List.cons_append, splitPred, hc, List.append_eq]
    rw [ih₂]
    simp

theorem splitPred_joinSep (p : Char → Bool) (sep : Char) (hsep : p sep = true)
    (gs : List Str) (hgs : ∀ g ∈ gs, ∀ c ∈ g, p c = false) (hne : gs ≠ []) :
    splitPred p (joinSep sep gs) = gs := by
  induction gs with
  | nil => simp at hne
  | cons g rest ih =>
    cases rest with
    | nil =>
      simp only [joinSep]
      exact splitPred_no_sep p g (hgs g (by simp))
    | cons g₂ rest₂ =>
      have step := splitPred_append_sep p sep g (joinSep sep (g₂ :: rest₂))
        (hgs g (by simp)) hsep
      have ih₂ := ih (fun x hx => hgs x (by simp [hx])) (by simp)
      simp only [joinSep, step, ih₂]

theorem mem_joinSep (sep : Char) (gs : List Str) (c : Char)
    (h : c ∈ joinSep sep gs) : c = sep ∨ ∃ g ∈ gs, c ∈ g := by
  induction gs with
  | nil => simp [joinSep] at h
  | cons g rest ih =>
    cases rest with
    | nil =>
      simp only [joinSep] at h
      exact Or.inr ⟨g, by simp, h⟩
    | cons g₂ rest₂ =>
      simp only [joinSep, List.mem_append, List.mem_cons] at h
      rcases h with hg | hc | hrest
      · exact Or.inr ⟨g, by simp, hg⟩
      · exact Or.inl hc
      · rcases ih hrest with hs | ⟨x, hx, hcx⟩
        · exact Or.inl hs
        · exact Or.inr ⟨x, by simp [hx], hcx⟩

theorem dropWhile_eq_self_of_head (p : Char → Bool) (s : Str)
    (h : ∀ c, s.head? = some c → p c = false) : s.dropWhile p = s := by
  cases s with
  | nil => rfl
  | cons c cs => simp [List.dropWhile_cons, h c rfl]

theorem strip_eq_self (s : Str)
    (h1 : ∀ c, s.head? = some c → c.isWhitespace = false)
    (h2 : ∀ c, s.getLast? = some c → c.isWhitespace = false) :
    strip s = s := by
  unfold strip stripLeft
  rw [dropWhile_eq_self_of_head _ _ h1]
  rw [dropWhile_eq_self_of_head _ _ (by
    intro c hc
    rw [List.head?_reverse] at hc
    exact h2 c hc)]
  exact List.reverse_reverse s

theorem strip_eq_self_of_noWs (s : Str) (h : noWs s) : strip s = s := by
  refine strip_eq_self s ?_ ?_
  · intro c hc
    exact h c (by cases s with
      | nil => simp at hc
      | cons a l => simp at hc; simp [hc])
  · intro c hc
    exact h c (List.mem_of_mem_getLast? hc)

theorem joinSep_head? (sep : Char) (g : Str) (rest : List Str) (hg : g ≠ []) :
    (joinSep sep (g :: rest)).head? = g.head? := by
  cases rest with
  | nil => rfl
  | cons g₂ rest₂ =>
    simp only [joinSep, List.head?_append]
    cases g with
    | nil => simp at hg
    | cons c cs => rfl

theorem joinSep_ne_nil (sep : Char) (g : Str) (rest : List Str) (hg : g ≠ []) :
    joinSep sep (g :: rest) ≠ [] := by
  cases rest with
  | nil => exact hg
  | cons g₂ rest₂ =>
    simp only [joinSep]
    cases g with
    | nil => simp
    | cons c cs => simp

theorem joinSep_getLast? (sep : Char) (gs : List Str) (g : Str)
    (hlast : gs.getLast? = some g) (hne : ∀ x ∈ gs, x ≠ []) :
    (joinSep sep gs).getLast? = g.getLast? := by
  induction gs with
  | nil => simp at hlast
  | cons x rest ih =>
    cases rest with
    | nil =>
      simp only [List.getLast?_singleton] at hlast
      cases hlast
      rfl
    | cons g₂ rest₂ =>
      have hlast₂ : (g₂ :: rest₂).getLast? = some g := by
        rwa [List.getLast?_cons_cons] at hlast
      have ih₂ := ih hlast₂ (fun x hx => hne x (by simp [hx]))
      have hJne : joinSep sep (g₂ :: rest₂) ≠ [] :=
        joinSep_ne_nil sep g₂ rest₂ (hne g₂ (by simp))
      obtain ⟨a, l, hJ⟩ := List.exists_cons_of_ne_nil hJne
      simp only [joinSep]
      rw [List.getLast?_append_of_ne_nil _ (by simp), hJ,
        List.getLast?_cons_cons, ← hJ, ih₂]


/-! ## Lemmas about the JSON-array model -/

theorem scanStr_complete (g rest : Str) (h : ∀ c ∈ g, c ≠ '"') :
    scanStr (g ++ '"' :: rest) = some (g, rest) := by
  induction g with
  | nil => simp [scanStr]
  | cons c cs ih =>
    have hc : c ≠ '"' := h c (by simp)
    have ih₂ := ih (fun d hd => h d (by simp [hd]))
    simp [scanStr, hc, ih₂]

theorem dropWs_cons_of_not_ws (c : Char) (r : Str)
    (h : c.isWhitespace = false) : dropWs (c :: r) = c :: r := by
  simp [dropWs, List.dropWhile_cons, h]

theorem parseTail_enc (gs : List Str) (g : Str) (fuel : Nat)
    (h : validToks (g :: gs)) (hf : gs.length < fuel) :
    parseTail fuel (joinSep ',' ((g :: gs).map quoteTok) ++ [']']) =
      some (g :: gs) := by
  induction gs generalizing g fuel with
  | nil =>
    obtain ⟨fuel, rfl⟩ := Nat.exists_eq_succ_of_ne_zero (Nat.pos_iff_ne_zero.mp hf)
    have hg := h g (by simp)
    have hq : ∀ c ∈ g, c ≠ '"' := fun c hc => (hg.2 c hc).2.2.1
    have harr : joinSep ',' ([g].map quoteTok) ++ [']'] =
        '"' :: (g ++ '"' :: [']']) := by
      simp [joinSep, quoteTok]
    have hws : ((']' : Char).isWhitespace) = false := by decide
    rw [harr]
    simp only [parseTail,
      dropWs_cons_of_not_ws ('"') (g ++ '"' :: [']']) (by decide),
      eq_self_iff_true, if_true, scanStr_complete g _ hq,
      dropWs_cons_of_not_ws (']') [] hws]
    simp [isBlank, dropWs]
  | cons g₂ gs₂ ih =>
    obtain ⟨fuel, rfl⟩ := Nat.exists_eq_succ_of_ne_zero
      (Nat.pos_iff_ne_zero.mp (Nat.lt_of_le_of_lt (Nat.zero_le _) hf))
    have hg := h g (by simp)
    have hq : ∀ c ∈ g, c ≠ '"' := fun c hc => (hg.2 c hc).2.2.1
    have harr : joinSep ',' ((g :: g₂ :: gs₂).map quoteTok) ++ [']'] =
        '"' :: (g ++ '"' ::
          (',' :: (joinSep ',' ((g₂ :: gs₂).map quoteTok) ++ [']']))) := by
      simp only [List.map_cons, joinSep, quoteTok]
      simp
    have hc1 : ((',' : Char) = ']') = False := by decide
    rw [harr]
    simp only [parseTail,
      dropWs_cons_of_not_ws ('"') _ (by decide),
      eq_self_iff_true, if_true, scanStr_complete g _ hq,
      dropWs_cons_of_not_ws (',') _ (by decide),
      hc1, if_false]
    have ih₂ := ih g₂ fuel (fun x hx => h x (List.Mem.tail g hx)) (by
      simp only [List.length_cons] at hf
      omega)
    rw [ih₂]

theorem joinSep_quoteTok_len (gs : List Str) :
    gs.length ≤ (joinSep ',' (gs.map quoteTok)).length := by
  induction gs with
  | nil => simp [joinSep]
  | cons g rest ih =>
    cases rest with
    | nil =>
      simp only [List.map_cons, List.map_nil, joinSep, quoteTok]
      simp
    | cons g₂ rest₂ =>
      simp only [List.map_cons, joinSep, quoteTok] at ih ⊢
      simp only [List.length_cons, List.length_append] at ih ⊢
      omega

theorem jsonLoads_enc (gs : List Str) (h : validToks gs) :
    jsonLoads (jsonEnc gs) = some gs := by
  cases gs with
  | nil => rfl
  | cons g gs₂ =>
    have hbody : jsonEnc (g :: gs₂) =
        '[' :: (joinSep ',' (quoteTok g :: gs₂.map quoteTok) ++ [']']) := by
      simp [jsonEnc]
    obtain ⟨t, ht⟩ : ∃ t,
        joinSep ',' (quoteTok g :: gs₂.map quoteTok) ++ [']'] = '"' :: t := by
      cases gs₂ with
      | nil => exact ⟨g ++ '"' :: [']'], by simp [joinSep, quoteTok]⟩
      | cons q qs =>
        refine ⟨(g ++ ['"']) ++
          ',' :: joinSep ',' (quoteTok q :: qs.map quoteTok) ++ [']'], ?_⟩
        simp [joinSep, quoteTok]
    have hfuel : gs₂.length <
        (joinSep ',' (quoteTok g :: gs₂.map quoteTok) ++ [']']).length + 1 := by
      have h₁ := joinSep_quoteTok_len (g :: gs₂)
      simp only [List.map_cons, List.length_cons] at h₁
      simp only [List.length_append]
      omega
    have hmain := parseTail_enc gs₂ g
      ((joinSep ',' (quoteTok g :: gs₂.map quoteTok) ++ [']']).length + 1) h
      hfuel
    simp only [List.map_cons] at hmain
    have hc1 : (('"' : Char) = ']') = False := by decide
    rw [hbody]
    simp only [jsonLoads,
      dropWs_cons_of_not_ws ('[') _ (by decide),
      eq_self_iff_true, if_true, ht,
      dropWs_cons_of_not_ws ('"') _ (by decide),
      hc1, if_false]
    rw [← ht]
    exact hmain

/-! ## Round-trip lemmas for the group-claim encodings -/

theorem validToks_noWs (gs : List Str) (h : validToks gs) (g : Str)
    (hg : g ∈ gs) : noWs g :=
  fun c hc => ((h g hg).2 c hc).1

theorem stripFilter_valid (gs : List Str) (h : validToks gs) :
    stripFilter gs = gs := by
  induction gs with
  | nil => rfl
  | cons g rest ih =>
    have hg := h g (by simp)
    have hs : strip g = g :=
      strip_eq_self_of_noWs g (fun c hc => (hg.2 c hc).1)
    have hne : g.isEmpty = false := by simpa using hg.1
    have ih₂ := ih (fun x hx => h x (List.Mem.tail g hx))
    simp only [stripFilter, List.map_cons, List.filter_cons] at ih₂ ⊢
    simp [hs, hne, ih₂]

theorem filter_nonempty_valid (gs : List Str) (h : validToks gs) :
    gs.filter (fun t => !t.isEmpty) = gs := by
  rw [List.filter_eq_self]
  intro g hg
  simpa using (h g hg).1

theorem pySplitComma_joinSep (gs : List Str) (h : validToks gs)
    (hne : gs ≠ []) : pySplitComma (commaEnc gs) = gs := by
  unfold pySplitComma commaEnc
  refine splitPred_joinSep _ ',' rfl gs ?_ hne
  intro g hg c hc
  exact beq_eq_false_iff_ne.mpr ((h g hg).2 c hc).2.1

theorem pySplitWs_joinSep (gs : List Str) (h : validToks gs)
    (hne : gs ≠ []) : pySplitWs (wsEnc gs) = gs := by
  unfold pySplitWs wsEnc
  rw [splitPred_joinSep _ ' ' (by decide) gs
    (fun g hg c hc => ((h g hg).2 c hc).1) hne]
  exact filter_nonempty_valid gs h

theorem noWs_commaEnc (gs : List Str) (h : validToks gs) :
    noWs (commaEnc gs) := by
  intro c hc
  rcases mem_joinSep ',' gs c hc with hc | ⟨g, hg, hcg⟩
  · rw [hc]; decide
  · exact ((h g hg).2 c hcg).1

theorem not_comma_mem_wsEnc (gs : List Str) (h : validToks gs) :
    ¬ (',' ∈ wsEnc gs) := by
  intro hmem
  rcases mem_joinSep ' ' gs ',' hmem with hc | ⟨g, hg, hcg⟩
  · exact absurd hc (by decide)
  · exact ((h g hg).2 ',' hcg).2.1 rfl

theorem parseGroupsRD_gStr_valid_single (g : Str) (h : validTok g) :
    parseGroupsRD (.gStr g) = [g] := by
  obtain ⟨c, cs, rfl⟩ := List.exists_cons_of_ne_nil h.1
  have hnw : noWs (c :: cs) := fun d hd => (h.2 d hd).1
  have hstrip : strip (c :: cs) = c :: cs := strip_eq_self_of_noWs _ hnw
  have hhead : (((c :: cs).head? == some '[') = false) :=
    beq_eq_false_iff_ne.mpr (by simp [(h.2 c (by simp)).2.2.2.1])
  have hcontains : (c :: cs).contains ',' = false := by
    by_cases hmem : ',' ∈ c :: cs
    · exact absurd rfl ((h.2 ',' hmem).2.1)
    · simpa using hmem
  have hsplit : pySplitWs (c :: cs) = [c :: cs] := by
    unfold pySplitWs
    rw [splitPred_no_sep _ _ hnw]
    simp
  simp only [parseGroupsRD, List.isEmpty_cons, hstrip, hhead,
    Bool.false_and, hcontains, if_false, hsplit]
  simpa using stripFilter_valid [c :: cs] (by
    intro x hx
    simp at hx
    rw [hx]
    exact h)

theorem parseGroupsU_comma (gs : List Str) (h : validToks gs) :
    parseGroupsU (.gStr (commaEnc gs)) = gs := by
  cases gs with
  | nil => rfl
  | cons g rest =>
    have hg := h g (by simp)
    have hne : (commaEnc (g :: rest)).isEmpty = false := by
      simpa using joinSep_ne_nil ',' g rest hg.1
    simp only [parseGroupsU, hne, if_false]
    rw [pySplitComma_joinSep (g :: rest) h (by simp)]
    exact stripFilter_valid (g :: rest) h

theorem parseGroupsRD_comma (gs : List Str) (h : validToks gs) :
    parseGroupsRD (.gStr (commaEnc gs)) = gs := by
  cases gs with
  | nil => rfl
  | cons g rest =>
    cases rest with
    | nil => exact parseGroupsRD_gStr_valid_single g (h g (by simp))
    | cons g₂ rest₂ =>
      have hg := h g (by simp)
      obtain ⟨c, cs, hgc⟩ := List.exists_cons_of_ne_nil hg.1
      have hcmem : c ∈ g := by rw [hgc]; simp
      have hne : (commaEnc (g :: g₂ :: rest₂)).isEmpty = false := by
        simpa using joinSep_ne_nil ',' g (g₂ :: rest₂) hg.1
      have hstrip : strip (commaEnc (g :: g₂ :: rest₂)) =
          commaEnc (g :: g₂ :: rest₂) :=
        strip_eq_self_of_noWs _ (noWs_commaEnc _ h)
      have hhead : (commaEnc (g :: g₂ :: rest₂)).head? = some c := by
        unfold commaEnc
        rw [joinSep_head? ',' g (g₂ :: rest₂) hg.1, hgc]
        rfl
      have hheadb : ((commaEnc (g :: g₂ :: rest₂)).head? == some '[') = false := by
        rw [hhead, beq_eq_false_iff_ne]
        have hc4 := (hg.2 c hcmem).2.2.2.1
        simp only [ne_eq, Option.some.injEq]
        exact hc4
      have hcontains : (commaEnc (g :: g₂ :: rest₂)).contains ',' = true := by
        have hmem : ',' ∈ commaEnc (g :: g₂ :: rest₂) := by
          unfold commaEnc
          simp [joinSep]
        simpa using hmem
      simp only [parseGroupsRD, hne, if_false, hstrip, hheadb,
        Bool.false_and, hcontains, if_true]
      rw [pySplitComma_joinSep (g :: g₂ :: rest₂) h (by simp)]
      exact stripFilter_valid (g :: g₂ :: rest₂) h

theorem parseGroupsRD_ws (gs : List Str) (h : validToks gs) :
    parseGroupsRD (.gStr (wsEnc gs)) = gs := by
  cases gs with
  | nil => rfl
  | cons g rest =>
    cases rest with
    | nil => exact parseGroupsRD_gStr_valid_single g (h g (by simp))
    | cons g₂ rest₂ =>
      have hg := h g (by simp)
      obtain ⟨c, cs, hgc⟩ := List.exists_cons_of_ne_nil hg.1
      have hcmem : c ∈ g := by rw [hgc]; simp
      have hne : (wsEnc (g :: g₂ :: rest₂)).isEmpty = false := by
        simpa using joinSep_ne_nil ' ' g (g₂ :: rest₂) hg.1
      have hhead : (wsEnc (g :: g₂ :: rest₂)).head? = some c := by
        unfold wsEnc
        rw [joinSep_head? ' ' g (g₂ :: rest₂) hg.1, hgc]
        rfl
      obtain ⟨glast, hlast⟩ : ∃ x, (g :: g₂ :: rest₂).getLast? = some x := by
        cases hl : (g :: g₂ :: rest₂).getLast? with
        | none => exact absurd (List.getLast?_eq_none_iff.mp hl) (by simp)
        | some x => exact ⟨x, rfl⟩
      have hglast_mem : glast ∈ g :: g₂ :: rest₂ :=
        List.mem_of_mem_getLast? (by rw [hlast]; rfl)
      have hgl := h glast hglast_mem
      have hgetLast : (wsEnc (g :: g₂ :: rest₂)).getLast? = glast.getLast? := by
        unfold wsEnc
        exact joinSep_getLast? ' ' (g :: g₂ :: rest₂) glast hlast
          (fun x hx => (h x hx).1)
      have hstrip : strip (wsEnc (g :: g₂ :: rest₂)) =
          wsEnc (g :: g₂ :: rest₂) := by
        refine strip_eq_self _ ?_ ?_
        · intro d hd
          rw [hhead] at hd
          cases hd
          exact (hg.2 c hcmem).1
        · intro d hd
          rw [hgetLast] at hd
          have hdg : d ∈ glast := List.mem_of_mem_getLast? (by rw [hd]; rfl)
          exact (hgl.2 d hdg).1
      have hheadb : ((wsEnc (g :: g₂ :: rest₂)).head? == some '[') = false := by
        rw [hhead, beq_eq_false_iff_ne]
        have hc4 := (hg.2 c hcmem).2.2.2.1
        simp only [ne_eq, Option.some.injEq]
        exact hc4
      have hcontains : (wsEnc (g :: g₂ :: rest₂)).contains ',' = false := by
        simpa using not_comma_mem_wsEnc (g :: g₂ :: rest₂) h
      simp only [parseGroupsRD, hne, if_false, hstrip, hheadb,
        Bool.false_and, hcontains]
      rw [pySplitWs_joinSep (g :: g₂ :: rest₂) h (by simp)]
      exact stripFilter_valid (g :: g₂ :: rest₂) h

theorem getLast?_cons_concat (c : Char) (l : Str) (a : Char) :
    (c :: (l ++ [a])).getLast? = some a := by
  induction l generalizing c with
  | nil => rfl
  | cons d ds ih =>
    rw [List.cons_append, List.getLast?_cons_cons]
    exact ih d

theorem parseGroupsRD_json (gs : List Str) (h : validToks gs) :
    parseGroupsRD (.gStr (jsonEnc gs)) = gs := by
  have hne : (jsonEnc gs).isEmpty = false := rfl
  have hhead : (jsonEnc gs).head? = some '[' := rfl
  have hgetLast : (jsonEnc gs).getLast? = some ']' := by
    unfold jsonEnc
    exact getLast?_cons_concat '[' _ ']'
  have hstrip : strip (jsonEnc gs) = jsonEnc gs := by
    refine strip_eq_self _ ?_ ?_
    · intro d hd
      rw [hhead] at hd
      cases hd
      decide
    · intro d hd
      rw [hgetLast] at hd
      cases hd
      decide
  have hcond : (((jsonEnc gs).head? == some '[') &&
      ((jsonEnc gs).getLast? == some ']')) = true := by
    rw [hhead, hgetLast]
    decide
  simp only [parseGroupsRD, hne, Bool.false_eq_true, if_false, hstrip,
    hcond, eq_self_iff_true, if_true]
  rw [jsonLoads_enc gs h]

theorem parseGroupsRD_groupsRaw_mk (v : GroupsVal) :
    parseGroupsRD (groupsRawRD (mkClaims v)) = parseGroupsRD v := by
  cases v with
  | gNone => rfl
  | gStr s => cases s with
    | nil => rfl
    | cons c cs => rfl
  | gList xs => cases xs with
    | nil => rfl
    | cons x xs₂ => rfl

theorem parseGroupsU_groupsRaw_mk (v : GroupsVal) :
    parseGroupsU (groupsRawU (mkClaims v)) = parseGroupsU v := by
  cases v with
  | gNone => rfl
  | gStr s => cases s with
    | nil => rfl
    | cons c cs => rfl
  | gList xs => cases xs with
    | nil => rfl
    | cons x xs₂ => rfl

/-! ## Structural helper lemmas for the handlers -/

theorem cognitoInfoRD_groups (c : Claims) :
    (cognitoInfoRD c).groups = parseGroupsRD (groupsRawRD c) := rfl

theorem cognitoInfoU_groups (c : Claims) :
    (cognitoInfoU c).groups = parseGroupsU (groupsRawU c) := rfl

theorem pyOrD_ne_nil (a : Option Str) (d : Str) (hd : d ≠ []) :
    pyOrD a d ≠ [] := by
  unfold pyOrD truthyO
  cases a with
  | none => exact hd
  | some s =>
    by_cases hs : s.isEmpty
    · simpa [hs] using hd
    · simpa [hs] using (by simpa using hs : s ≠ [])

/-! ## Claim theorems -/

/-- C1: the access decision `_has_any_group` returns allow exactly when the
case-insensitive intersection of the caller groups and the allowed groups is
non-empty; it denies for every allowed list when the caller group set is
empty, and the caller group Admin satisfies the required group admin (also
for `_is_admin`). -/
theorem c1_access_decision :
    (∀ ug al : List Str, hasAnyGroup ug al = true ↔
      ∃ g ∈ ug, ∃ a ∈ al, lowerStr g = lowerStr a) ∧
    (∀ al : List Str, hasAnyGroup [] al = false) ∧
    hasAnyGroup [sAdminCap] [sAdmin] = true ∧
    isAdmin [sAdminCap] = true := by
  refine ⟨?_, ?_, by decide, by decide⟩
  · intro ug al
    unfold hasAnyGroup
    cases ug with
    | nil => simp
    | cons u us =>
      simp only [List.isEmpty_cons, Bool.false_eq_true, if_false,
        List.any_eq_true, List.mem_map]
      constructor
      · rintro ⟨x, ⟨g, hg, rfl⟩, hx⟩
        have hmem : lowerStr g ∈ al.map lowerStr := by simpa using hx
        rcases List.mem_map.mp hmem with ⟨a, ha, hag⟩
        exact ⟨g, hg, a, ha, hag.symm⟩
      · rintro ⟨g, hg, a, ha, hag⟩
        refine ⟨lowerStr g, ⟨g, hg, rfl⟩, ?_⟩
        have hmem : lowerStr g ∈ al.map lowerStr :=
          List.mem_map.mpr ⟨a, ha, hag.symm⟩
        simpa using hmem
  · intro al
    rfl

theorem dropWhile_append_keep_last (p : Char → Bool) (l : Str) (c : Char)
    (hc : p c = false) : ∃ u, (l ++ [c]).dropWhile p = u ++ [c] := by
  induction l with
  | nil => exact ⟨[], by simp [List.dropWhile_cons, hc]⟩
  | cons x xs ih =>
    by_cases hx : p x = true
    · obtain ⟨u, hu⟩ := ih
      exact ⟨u, by simp [List.dropWhile_cons, hx, hu]⟩
    · exact ⟨x :: xs, by simp [List.dropWhile_cons, hx]⟩

theorem strip_head (c : Char) (t : Str) (hc : c.isWhitespace = false) :
    ∃ u, strip (c :: t) = c :: u := by
  unfold strip stripLeft
  rw [List.dropWhile_cons]
  simp only [hc, Bool.false_eq_true, if_false]
  rw [List.reverse_cons]
  obtain ⟨u, hu⟩ := dropWhile_append_keep_last
    (fun d => d.isWhitespace) t.reverse c hc
  rw [hu]
  exact ⟨u.reverse, by simp⟩

/-- C2 counterexample: the four claim encodings of one logical group set do
not all normalize alike.  record_download maps the list encoding to the
empty group set while the plain string parses; the upload-family normalizer
leaves a whitespace-separated pair as one token and mangles a
JSON-array-shaped pair, while the list encoding keeps both groups. -/
theorem c2_counterexample :
    (cognitoInfoRD (mkClaims (.gList [sAdmin]))).groups = [] ∧
    (cognitoInfoRD (mkClaims (.gStr sAdmin))).groups = [sAdmin] ∧
    (cognitoInfoU (mkClaims (.gStr (wsEnc [sA, sB])))).groups ≠ [sA, sB] ∧
    (cognitoInfoU (mkClaims (.gStr (jsonEnc [sA, sB])))).groups ≠ [sA, sB] ∧
    (cognitoInfoU (mkClaims (.gList [sA, sB]))).groups = [sA, sB] := by
  refine ⟨by decide, by decide, by decide, by decide, by decide⟩

/-- C2 amended: for every well-formed logical group set, the
comma-separated, whitespace-separated and JSON-array-shaped string encodings
make record_download's claims normalizer produce the same group set, with
whitespace trimmed and empty tokens dropped in the comma and whitespace
splitting cases, while the list encoding yields the empty set there; the
upload-family normalizer agrees only on the list and comma-separated
encodings: it leaves a whitespace-separated encoding of two or more groups
as one single token, and it never parses a JSON-array-shaped encoding to
the group set - its first token keeps the leading bracket. -/
theorem c2_encodings_amended :
    (∀ gs : List Str, validToks gs →
      (cognitoInfoRD (mkClaims (.gStr (commaEnc gs)))).groups = gs ∧
      (cognitoInfoRD (mkClaims (.gStr (wsEnc gs)))).groups = gs ∧
      (cognitoInfoRD (mkClaims (.gStr (jsonEnc gs)))).groups = gs ∧
      (cognitoInfoRD (mkClaims (.gList gs))).groups = [] ∧
      (cognitoInfoU (mkClaims (.gList gs))).groups = gs ∧
      (cognitoInfoU (mkClaims (.gStr (commaEnc gs)))).groups = gs) ∧
    (∀ (g g₂ : Str) (rest : List Str), validToks (g :: g₂ :: rest) →
      (cognitoInfoU (mkClaims (.gStr (wsEnc (g :: g₂ :: rest))))).groups =
        [wsEnc (g :: g₂ :: rest)]) ∧
    (∀ (g : Str) (rest : List Str), validToks (g :: rest) →
      (∃ u ts, (cognitoInfoU (mkClaims (.gStr (jsonEnc (g :: rest))))).groups =
        ('[' :: u) :: ts) ∧
      (cognitoInfoU (mkClaims (.gStr (jsonEnc (g :: rest))))).groups ≠
        g :: rest) ∧
    (cognitoInfoRD (mkClaims (.gStr demoCommaStr))).groups = [sA, sB] := by
  refine ⟨?_, ?_, ?_, by decide⟩
  · intro gs h
    refine ⟨?_, ?_, ?_, ?_, ?_, ?_⟩
    · rw [cognitoInfoRD_groups, parseGroupsRD_groupsRaw_mk]
      exact parseGroupsRD_comma gs h
    · rw [cognitoInfoRD_groups, parseGroupsRD_groupsRaw_mk]
      exact parseGroupsRD_ws gs h
    · rw [cognitoInfoRD_groups, parseGroupsRD_groupsRaw_mk]
      exact parseGroupsRD_json gs h
    · rw [cognitoInfoRD_groups, parseGroupsRD_groupsRaw_mk]
      rfl
    · rw [cognitoInfoU_groups, parseGroupsU_groupsRaw_mk]
      rfl
    · rw [cognitoInfoU_groups, parseGroupsU_groupsRaw_mk]
      exact parseGroupsU_comma gs h
  · intro g g₂ rest h
    rw [cognitoInfoU_groups, parseGroupsU_groupsRaw_mk]
    have hg := h g (by simp)
    have hne : (wsEnc (g :: g₂ :: rest)).isEmpty = false := by
      simpa using joinSep_ne_nil ' ' g (g₂ :: rest) hg.1
    obtain ⟨c, cs, hgc⟩ := List.exists_cons_of_ne_nil hg.1
    have hcmem : c ∈ g := by rw [hgc]; simp
    have hhead : (wsEnc (g :: g₂ :: rest)).head? = some c := by
      unfold wsEnc
      rw [joinSep_head? ' ' g (g₂ :: rest) hg.1, hgc]
      rfl
    obtain ⟨glast, hlast⟩ : ∃ x, (g :: g₂ :: rest).getLast? = some x := by
      cases hl : (g :: g₂ :: rest).getLast? with
      | none => exact absurd (List.getLast?_eq_none_iff.mp hl) (by simp)
      | some x => exact ⟨x, rfl⟩
    have hglast_mem : glast ∈ g :: g₂ :: rest :=
      List.mem_of_mem_getLast? (by rw [hlast]; rfl)
    have hgl := h glast hglast_mem
    have hgetLast : (wsEnc (g :: g₂ :: rest)).getLast? = glast.getLast? := by
      unfold wsEnc
      exact joinSep_getLast? ' ' (g :: g₂ :: rest) glast hlast
        (fun x hx => (h x hx).1)
    have hstrip : strip (wsEnc (g :: g₂ :: rest)) =
        wsEnc (g :: g₂ :: rest) := by
      refine strip_eq_self _ ?_ ?_
      · intro d hd
        rw [hhead] at hd
        cases hd
        exact (hg.2 c hcmem).1
      · intro d hd
        rw [hgetLast] at hd
        have hdg : d ∈ glast := List.mem_of_mem_getLast? (by rw [hd]; rfl)
        exact (hgl.2 d hdg).1
    have hsplit : pySplitComma (wsEnc (g :: g₂ :: rest)) =
        [wsEnc (g :: g₂ :: rest)] := by
      unfold pySplitComma
      refine splitPred_no_sep _ _ ?_
      intro d hd
      refine beq_eq_false_iff_ne.mpr ?_
      intro hdc
      exact not_comma_mem_wsEnc (g :: g₂ :: rest) h (hdc ▸ hd)
    simp only [parseGroupsU, hne, Bool.false_eq_true, if_false, hsplit,
      stripFilter, List.map_cons, List.map_nil, hstrip, List.filter_cons]
    simp [hne]
  · intro g rest h
    have hpf : (('[' : Char) == ',') = false := by decide
    obtain ⟨t, ts, hsplit⟩ : ∃ t ts, splitPred (fun c => c == ',')
        (joinSep ',' ((g :: rest).map quoteTok) ++ [']']) = t :: ts := by
      rcases hx : splitPred (fun c => c == ',')
          (joinSep ',' ((g :: rest).map quoteTok) ++ [']']) with _ | ⟨t, ts⟩
      · exact absurd hx (splitPred_ne_nil _ _)
      · exact ⟨t, ts, rfl⟩
    have hps : pySplitComma (jsonEnc (g :: rest)) = ('[' :: t) :: ts := by
      unfold pySplitComma jsonEnc
      simp only [splitPred, hpf, Bool.false_eq_true, if_false, List.append_eq,
        hsplit]
    obtain ⟨u, hu⟩ := strip_head '[' t (by decide)
    have hne : (jsonEnc (g :: rest)).isEmpty = false := rfl
    have hgroups : (cognitoInfoU (mkClaims (.gStr (jsonEnc (g :: rest))))).groups
        = ('[' :: u) :: ((ts.map strip).filter (fun x => !x.isEmpty)) := by
      rw [cognitoInfoU_groups, parseGroupsU_groupsRaw_mk]
      simp only [parseGroupsU, hne, Bool.false_eq_true, if_false, hps,
        stripFilter, List.map_cons, hu, List.filter_cons]
      simp
    refine ⟨⟨u, (ts.map strip).filter (fun x => !x.isEmpty), hgroups⟩, ?_⟩
    rw [hgroups]
    intro heq
    have hgu : '[' :: u = g := (List.cons.injEq _ _ _ _).mp heq |>.1
    have hmem : '[' ∈ g := by
      rw [← hgu]
      simp
    exact ((h g (by simp)).2 '[' hmem).2.2.2.1 rfl

/-- Witness for the C2 amended theorem at the concrete group set
[Admin, viewer]. -/
theorem c2_encodings_witness :
    validToks [sAdminCap, sViewer] ∧
    (cognitoInfoRD (mkClaims (.gStr (commaEnc [sAdminCap, sViewer])))).groups =
      [sAdminCap, sViewer] :=
  ⟨by decide, (c2_encodings_amended.1 [sAdminCap, sViewer] (by decide)).1⟩

/-- C10: delete_file validates the path parameter before any
authentication or authorization check: a request whose path parameters
carry neither a fileId nor an id receives 400 for every caller, including
an unauthenticated or non-admin one, and no backend call is made. -/
theorem c10_delete_validation_first :
    ∀ (w : DelWorld) (e : DelEvent),
      truthyO (e.pathParameters.getD ⟨none, none⟩).fileId = none →
      truthyO (e.pathParameters.getD ⟨none, none⟩).id = none →
      deleteFileHandler w e =
        (⟨400, .obj [(kError, .s mMissingFileId)]⟩, noDelEffects) := by
  intro w e h1 h2
  have hchain : pyOrS (e.pathParameters.getD ⟨none, none⟩).fileId
      (truthyO (e.pathParameters.getD ⟨none, none⟩).id) = none := by
    simp [pyOrS, h1, h2]
  simp only [deleteFileHandler, hchain]

/-- Witness for C10 at a concrete request with absent path parameters and
no identity claims. -/
theorem c10_witness :
    truthyO ((none : Option PathParams).getD ⟨none, none⟩).fileId = none ∧
    deleteFileHandler ⟨.absent, true, true, sErrEx⟩ ⟨noClaims, none⟩ =
      (⟨400, .obj [(kError, .s mMissingFileId)]⟩, noDelEffects) :=
  ⟨rfl, c10_delete_validation_first ⟨.absent, true, true, sErrEx⟩
    ⟨noClaims, none⟩ rfl rfl⟩

/-- C5: delete_file with an absent metadata record answers 404 and neither
the object store nor the metadata table is touched. -/
theorem c5_delete_absent_404 :
    ∀ (w : DelWorld) (e : DelEvent) (fid : Str),
      pyOrS (e.pathParameters.getD ⟨none, none⟩).fileId
        (truthyO (e.pathParameters.getD ⟨none, none⟩).id) = some fid →
      isAdmin (cognitoInfoU e.claims).groups = true →
      w.get = .absent →
      deleteFileHandler w e =
        (⟨404, .obj [(kError, .s mMetaNotFound), (kFileId, .s fid)]⟩,
         noDelEffects) := by
  intro w e fid hpath hadmin hget
  simp only [deleteFileHandler, hpath, hadmin, hget, Bool.not_true,
    Bool.false_eq_true, if_false]

/-- Witness for C5: an admin deleting a fileId with no stored metadata. -/
theorem c5_witness :
    isAdmin (cognitoInfoU adminClaims).groups = true ∧
    deleteFileHandler ⟨.absent, true, true, sErrEx⟩
        ⟨adminClaims, some ⟨some sFileEx, none⟩⟩ =
      (⟨404, .obj [(kError, .s mMetaNotFound), (kFileId, .s sFileEx)]⟩,
       noDelEffects) :=
  ⟨by decide, c5_delete_absent_404 ⟨.absent, true, true, sErrEx⟩
    ⟨adminClaims, some ⟨some sFileEx, none⟩⟩ sFileEx (by decide) (by decide)
    rfl⟩

/-- C6: delete_file with existing metadata and an admin caller: a failed
object-store deletion still yields 200 with deleted true when the metadata
deletion succeeds, while a failed metadata deletion yields 500 and never
success. -/
theorem c6_delete_failure_semantics :
    ∀ (w : DelWorld) (e : DelEvent) (fid : Str) (item : DelItem) (s3k : Str),
      pyOrS (e.pathParameters.getD ⟨none, none⟩).fileId
        (truthyO (e.pathParameters.getD ⟨none, none⟩).id) = some fid →
      isAdmin (cognitoInfoU e.claims).groups = true →
      w.get = .found item →
      truthyO item.s3Key = some s3k →
      ((w.s3DeleteOk = false → w.ddbDeleteOk = true →
        deleteFileHandler w e =
          (⟨200, .obj [(kDeleted, .b true), (kFileId, .s fid),
            (kS3Key, .s s3k)]⟩, ⟨true, true⟩)) ∧
       (w.ddbDeleteOk = false →
        (deleteFileHandler w e).1.status = 500 ∧
        (deleteFileHandler w e).1.status ≠ 200)) := by
  intro w e fid item s3k hpath hadmin hget hs3k
  constructor
  · intro _ hddb
    simp only [deleteFileHandler, hpath, hadmin, hget, hs3k, hddb,
      Bool.not_true, Bool.false_eq_true, if_false, if_true]
  · intro hddb
    simp [deleteFileHandler, hpath, hadmin, hget, hs3k, hddb]

/-- Witness for C6: an admin delete over metadata pointing at an existing
key, with a failing object-store deletion and a succeeding metadata
deletion. -/
theorem c6_witness :
    truthyO (DelItem.mk (some sKeyEx)).s3Key = some sKeyEx ∧
    deleteFileHandler ⟨.found ⟨some sKeyEx⟩, false, true, sErrEx⟩
        ⟨adminClaims, some ⟨some sFileEx, none⟩⟩ =
      (⟨200, .obj [(kDeleted, .b true), (kFileId, .s sFileEx),
        (kS3Key, .s sKeyEx)]⟩, ⟨true, true⟩) :=
  ⟨rfl, (c6_delete_failure_semantics ⟨.found ⟨some sKeyEx⟩, false, true, sErrEx⟩
    ⟨adminClaims, some ⟨some sFileEx, none⟩⟩ sFileEx ⟨some sKeyEx⟩ sKeyEx
    (by decide) (by decide) rfl rfl).1 rfl rfl⟩

/-- C4: issue-download-url with the existence check enabled and a probe
reporting not-found fails with 404 and generates no signed URL; with the
check disabled it always returns a signed URL without probing, whatever the
object state. -/
theorem c4_download_existence_check :
    ∀ (w : DnWorld) (e : DnEvent) (rawKey : Str),
      ((cognitoInfoU e.claims).username == sUnknownUser &&
        (truthyO (cognitoInfoU e.claims).email).isNone &&
        (cognitoInfoU e.claims).groups.isEmpty) = false →
      hasAnyGroup (cognitoInfoU e.claims).groups
        [sAdmin, sUploader, sViewer] = true →
      truthyO (e.queryStringParameters.getD ⟨none, none, none, none⟩).key =
        some rawKey →
      ((w.checkExists = true → w.head = .notFound →
        presignDownloadHandler w e =
          (⟨404, .obj [(kError, .s mObjectNotFound),
            (kKey, .s (unquote rawKey))]⟩, ⟨true, false, none, false⟩)) ∧
       (w.checkExists = false →
        (presignDownloadHandler w e).1 =
          ⟨200, .obj [(kUrl, .s w.url), (kExpiresIn, .n w.ttl)]⟩ ∧
        (presignDownloadHandler w e).2.presignCalled = true ∧
        (presignDownloadHandler w e).2.headCalled = false)) := by
  intro w e rawKey hauth hgroups hkey
  constructor
  · intro hce hhead
    simp [presignDownloadHandler, hauth, hgroups, hkey, hce, hhead]
  · intro hce
    simp [presignDownloadHandler, hauth, hgroups, hkey, hce, dnIssue]

/-- Witness for C4: a viewer requesting a key whose existence probe reports
not-found while the check is enabled. -/
theorem c4_witness :
    hasAnyGroup (cognitoInfoU viewerClaims).groups
      [sAdmin, sUploader, sViewer] = true ∧
    presignDownloadHandler ⟨true, 900, .notFound, sUrlEx, sUuidEx, sNowEx, true⟩
        ⟨viewerClaims, some ⟨some sKeyEx, none, none, none⟩, none⟩ =
      (⟨404, .obj [(kError, .s mObjectNotFound),
        (kKey, .s (unquote sKeyEx))]⟩, ⟨true, false, none, false⟩) :=
  ⟨by decide, (c4_download_existence_check
    ⟨true, 900, .notFound, sUrlEx, sUuidEx, sNowEx, true⟩
    ⟨viewerClaims, some ⟨some sKeyEx, none, none, none⟩, none⟩ sKeyEx
    (by decide) (by decide) rfl).1 rfl rfl⟩

/-- C7: a failing audit-record write never changes the caller-visible
outcome of issue-download-url: the response is still 200 with the signed
URL and expiresIn, and the write was attempted. -/
theorem c7_audit_failure_invisible :
    ∀ (w : DnWorld) (e : DnEvent) (rawKey : Str),
      ((cognitoInfoU e.claims).username == sUnknownUser &&
        (truthyO (cognitoInfoU e.claims).email).isNone &&
        (cognitoInfoU e.claims).groups.isEmpty) = false →
      hasAnyGroup (cognitoInfoU e.claims).groups
        [sAdmin, sUploader, sViewer] = true →
      truthyO (e.queryStringParameters.getD ⟨none, none, none, none⟩).key =
        some rawKey →
      (w.checkExists = false ∨ w.head = .ok) →
      w.putOk = false →
      (presignDownloadHandler w e).1 =
        ⟨200, .obj [(kUrl, .s w.url), (kExpiresIn, .n w.ttl)]⟩ ∧
      (presignDownloadHandler w e).2.historyAttempted ≠ none := by
  intro w e rawKey hauth hgroups hkey hok hput
  rcases hok with hce | hhead
  · simp [presignDownloadHandler, hauth, hgroups, hkey, hce, dnIssue]
  · by_cases hce : w.checkExists = true
    · simp [presignDownloadHandler, hauth, hgroups, hkey, hce, hhead, dnIssue]
    · simp [presignDownloadHandler, hauth, hgroups, hkey, hce, dnIssue]

/-- Witness for C7: a viewer download with the existence check disabled and
a failing history write. -/
theorem c7_witness :
    (⟨false, 900, HeadRes.notFound, sUrlEx, sUuidEx, sNowEx, false⟩ :
      DnWorld).putOk = false ∧
    (presignDownloadHandler ⟨false, 900, .notFound, sUrlEx, sUuidEx, sNowEx, false⟩
        ⟨viewerClaims, some ⟨some sKeyEx, none, none, none⟩, none⟩).1 =
      ⟨200, .obj [(kUrl, .s sUrlEx), (kExpiresIn, .n 900)]⟩ :=
  ⟨rfl, (c7_audit_failure_invisible
    ⟨false, 900, .notFound, sUrlEx, sUuidEx, sNowEx, false⟩
    ⟨viewerClaims, some ⟨some sKeyEx, none, none, none⟩, none⟩ sKeyEx
    (by decide) (by decide) rfl (Or.inl rfl) rfl).1⟩

/-- C3 counterexample: a request with no identity claims at all is NOT
answered 401 by every operation: issue-upload-url, delete-file (with a
fileId present) and record-download all answer 403 for it. -/
theorem c3_counterexample :
    (presignUploadHandler ⟨900, sUuidEx, sNowEx, sUrlEx, true, sErrEx⟩
        ⟨noClaims, .udict none⟩).1.status = 403 ∧
    (deleteFileHandler ⟨.absent, true, true, sErrEx⟩
        ⟨noClaims, some ⟨some sFileEx, none⟩⟩).1.status = 403 ∧
    (recordDownloadHandler ⟨900, sUuidEx, sNowEx, true, sErrEx⟩
        ⟨none, noClaims, .rdBad⟩).1.status = 403 :=
  ⟨by decide, by decide, by decide⟩

/-- C3 amended: only issue-download-url distinguishes a claims-free request
(401) from an authenticated caller without an allowed group (403);
list-files answers 401 exactly when the normalized group set is empty and
403 when groups exist but none is allowed; issue-upload-url, delete-file
and record-download never answer 401 and reject a caller without the
required group - including a claims-free caller - with 403. -/
theorem c3_amended :
    (∀ (w : DnWorld) (e : DnEvent), e.claims = noClaims →
      (presignDownloadHandler w e).1.status = 401) ∧
    (∀ (w : DnWorld) (e : DnEvent),
      ¬((cognitoInfoU e.claims).username = sUnknownUser ∧
        truthyO (cognitoInfoU e.claims).email = none ∧
        (cognitoInfoU e.claims).groups = []) →
      hasAnyGroup (cognitoInfoU e.claims).groups
        [sAdmin, sUploader, sViewer] = false →
      (presignDownloadHandler w e).1.status = 403) ∧
    (∀ (w : LfWorld) (e : LfEvent), (cognitoInfoU e.claims).groups = [] →
      (listFilesHandler w e).status = 401) ∧
    (∀ (w : LfWorld) (e : LfEvent), (cognitoInfoU e.claims).groups ≠ [] →
      hasAnyGroup (cognitoInfoU e.claims).groups
        [sAdmin, sUploader, sViewer] = false →
      (listFilesHandler w e).status = 403) ∧
    (∀ (w : UpWorld) (e : UpEvent),
      (presignUploadHandler w e).1.status ≠ 401) ∧
    (∀ (w : UpWorld) (e : UpEvent),
      hasAnyGroup (cognitoInfoU e.claims).groups [sAdmin, sUploader] = false →
      (presignUploadHandler w e).1.status = 403) ∧
    (∀ (w : DelWorld) (e : DelEvent),
      (deleteFileHandler w e).1.status ≠ 401) ∧
    (∀ (w : DelWorld) (e : DelEvent) (fid : Str),
      pyOrS (e.pathParameters.getD ⟨none, none⟩).fileId
        (truthyO (e.pathParameters.getD ⟨none, none⟩).id) = some fid →
      isAdmin (cognitoInfoU e.claims).groups = false →
      (deleteFileHandler w e).1.status = 403) ∧
    (∀ (w : RdWorld) (e : RdEvent),
      (recordDownloadHandler w e).1.status ≠ 401) ∧
    (∀ (w : RdWorld) (e : RdEvent),
      rdAllowed ((cognitoInfoRD (match e.jwtClaims with
        | some c => c
        | none => e.claims)).groups.map lowerStr) = false →
      (recordDownloadHandler w e).1.status = 403) := by
  refine ⟨?_, ?_, ?_, ?_, ?_, ?_, ?_, ?_, ?_, ?_⟩
  · intro w e he
    have hc : ((cognitoInfoU noClaims).username == sUnknownUser &&
        (truthyO (cognitoInfoU noClaims).email).isNone &&
        (cognitoInfoU noClaims).groups.isEmpty) = true := by decide
    simp [presignDownloadHandler, he, hc]
  · intro w e hna hgroups
    have hcond : ((cognitoInfoU e.claims).username == sUnknownUser &&
        (truthyO (cognitoInfoU e.claims).email).isNone &&
        (cognitoInfoU e.claims).groups.isEmpty) = false := by
      cases hb : ((cognitoInfoU e.claims).username == sUnknownUser &&
          (truthyO (cognitoInfoU e.claims).email).isNone &&
          (cognitoInfoU e.claims).groups.isEmpty) with
      | false => rfl
      | true =>
        exfalso
        apply hna
        simp only [Bool.and_eq_true, beq_iff_eq, Option.isNone_iff_eq_none,
          List.isEmpty_iff] at hb
        exact ⟨hb.1.1, hb.1.2, hb.2⟩
    simp [presignDownloadHandler, hcond, hgroups]
  · intro w e hg
    have h1 : (cognitoInfoU e.claims).groups.isEmpty = true := by simp [hg]
    simp [listFilesHandler, h1]
  · intro w e hg hgr
    have h1 : (cognitoInfoU e.claims).groups.isEmpty = false := by
      simpa using hg
    simp [listFilesHandler, h1, hgr]
  · intro w e
    have hne : (pyOrD (pyOrS (cognitoInfoU e.claims).email
        (some (cognitoInfoU e.claims).username)) sUnknownUser).isEmpty =
        false := by
      simpa using pyOrD_ne_nil _ _ (by decide)
    simp only [presignUploadHandler, hne, Bool.and_false, Bool.false_and,
      Bool.false_eq_true, if_false]
    repeat' split
    all_goals simp
  · intro w e hgr
    have hne : (pyOrD (pyOrS (cognitoInfoU e.claims).email
        (some (cognitoInfoU e.claims).username)) sUnknownUser).isEmpty =
        false := by
      simpa using pyOrD_ne_nil _ _ (by decide)
    simp [presignUploadHandler, hne, hgr]
  · intro w e
    simp only [deleteFileHandler]
    repeat' split
    all_goals simp
  · intro w e fid hpath hadmin
    simp [deleteFileHandler, hpath, hadmin]
  · intro w e
    simp only [recordDownloadHandler]
    repeat' split
    all_goals simp
  · intro w e hrd
    simp [recordDownloadHandler, hrd]

/-- Witness for C3 amended at concrete requests: a claims-free download
request is 401 and a claims-free delete request with a fileId is 403. -/
theorem c3_witness :
    ((⟨noClaims, none, none⟩ : DnEvent)).claims = noClaims ∧
    (presignDownloadHandler ⟨true, 900, .ok, sUrlEx, sUuidEx, sNowEx, true⟩
      ⟨noClaims, none, none⟩).1.status = 401 ∧
    (deleteFileHandler ⟨.absent, true, true, sErrEx⟩
      ⟨noClaims, some ⟨some sFileEx, none⟩⟩).1.status = 403 :=
  ⟨rfl, c3_amended.1 ⟨true, 900, .ok, sUrlEx, sUuidEx, sNowEx, true⟩
      ⟨noClaims, none, none⟩ rfl,
    c3_amended.2.2.2.2.2.2.2.1 ⟨.absent, true, true, sErrEx⟩
      ⟨noClaims, some ⟨some sFileEx, none⟩⟩ sFileEx (by decide) (by decide)⟩

/-- C8 counterexample: record_download prefers the cognito username over a
present email, and the upload-family normalizer skips a present-but-empty
email rather than using it, so the username is not the first present of
email, username-like claim, subject in every mapping. -/
theorem c8_counterexample :
    usernameRD ⟨some sEmailEx, some sUserEx, some sSubEx, none,
      .gNone, .gNone, .gNone⟩ = some sUserEx ∧
    sUserEx ≠ sEmailEx ∧
    usernameU ⟨some [], none, some sSubEx, none, .gNone, .gNone, .gNone⟩ =
      sSubEx ∧
    sSubEx ≠ [] :=
  ⟨by decide, by decide, by decide, by decide⟩

/-- C8 amended: the upload-family normalizer takes the first non-empty of
email, cognito username, subject, with the sentinel unknown-user when all
are empty or absent; the record_download normalizer takes the first
non-empty of cognito username, plain username, email, and otherwise falls
back to the raw subject claim with no sentinel. -/
theorem c8_username_precedence :
    (∀ (c : Claims) (s : Str), truthyO c.email = some s → usernameU c = s) ∧
    (∀ (c : Claims) (s : Str), truthyO c.email = none →
      truthyO c.cognitoUsername = some s → usernameU c = s) ∧
    (∀ (c : Claims) (s : Str), truthyO c.email = none →
      truthyO c.cognitoUsername = none → truthyO c.sub = some s →
      usernameU c = s) ∧
    (∀ c : Claims, truthyO c.email = none → truthyO c.cognitoUsername = none →
      truthyO c.sub = none → usernameU c = sUnknownUser) ∧
    (∀ (c : Claims) (s : Str), truthyO c.cognitoUsername = some s →
      usernameRD c = some s) ∧
    (∀ (c : Claims) (s : Str), truthyO c.cognitoUsername = none →
      truthyO c.username = some s → usernameRD c = some s) ∧
    (∀ (c : Claims) (s : Str), truthyO c.cognitoUsername = none →
      truthyO c.username = none → truthyO c.email = some s →
      usernameRD c = some s) ∧
    (∀ c : Claims, truthyO c.cognitoUsername = none →
      truthyO c.username = none → truthyO c.email = none →
      usernameRD c = c.sub) := by
  have hne : ∀ (a : Option Str) (s : Str), truthyO a = some s →
      s.isEmpty = false := by
    intro a s h
    cases a with
    | none => exact absurd h (by simp [truthyO])
    | some t =>
      by_cases ht : t.isEmpty
      · simp [truthyO, ht] at h
      · simp only [truthyO, ht, Bool.false_eq_true, if_false,
          Option.some.injEq] at h
        rw [← h]
        simpa using ht
  refine ⟨?_, ?_, ?_, ?_, ?_, ?_, ?_, ?_⟩
  · intro c s h
    have hts : truthyO (some s) = some s := by
      simp [truthyO, hne _ _ h]
    simp [usernameU, pyOrS, pyOrD, h, hts]
  · intro c s h1 h2
    have hts : truthyO (some s) = some s := by
      simp [truthyO, hne _ _ h2]
    simp [usernameU, pyOrS, pyOrD, h1, h2, hts]
  · intro c s h1 h2 h3
    simp [usernameU, pyOrS, pyOrD, h1, h2, h3]
  · intro c h1 h2 h3
    simp [usernameU, pyOrS, pyOrD, h1, h2, h3]
  · intro c s h
    simp [usernameRD, pyOrS, h]
  · intro c s h1 h2
    simp [usernameRD, pyOrS, h1, h2]
  · intro c s h1 h2 h3
    simp [usernameRD, pyOrS, h1, h2, h3]
  · intro c h1 h2 h3
    simp [usernameRD, pyOrS, h1, h2, h3]

/-- Witness for C8: a caller whose claims carry an email, a cognito
username and a subject; the upload-family username is the email. -/
theorem c8_witness :
    truthyO viewerClaims.email = some sEmailEx ∧
    usernameU viewerClaims = sEmailEx :=
  ⟨by decide, c8_username_precedence.1 viewerClaims sEmailEx (by decide)⟩

/-- C9 counterexample: the audit record of a successful issue-download-url
run has no requesterGroups field (its groups snapshot is stored under
userGroups), and the record written by record-download has neither an ip
nor a userAgent field. -/
theorem c9_counterexample :
    ¬ kRequesterGroups ∈
      (((presignDownloadHandler ⟨true, 900, .ok, sUrlEx, sUuidEx, sNowEx, true⟩
        ⟨viewerClaims, some ⟨some sKeyEx, none, none, none⟩,
          none⟩).2.historyAttempted.getD []).map Prod.fst) ∧
    kUserGroups ∈
      (((presignDownloadHandler ⟨true, 900, .ok, sUrlEx, sUuidEx, sNowEx, true⟩
        ⟨viewerClaims, some ⟨some sKeyEx, none, none, none⟩,
          none⟩).2.historyAttempted.getD []).map Prod.fst) ∧
    ¬ kIp ∈
      (((recordDownloadHandler ⟨900, sUuidEx, sNowEx, true, sErrEx⟩
        ⟨none, viewerClaims, .rdOk (some (.s sKeyEx)) none none none none
          none⟩).2.putAttempted.getD []).map Prod.fst) ∧
    ¬ kUserAgent ∈
      (((recordDownloadHandler ⟨900, sUuidEx, sNowEx, true, sErrEx⟩
        ⟨none, viewerClaims, .rdOk (some (.s sKeyEx)) none none none none
          none⟩).2.putAttempted.getD []).map Prod.fst) :=
  ⟨by decide, by decide, by decide, by decide⟩

/-- C9 amended: every audit item issue-download-url attempts to write
carries exactly downloadId, s3Key, versionId, requestedBy, requestedAt, ip,
userAgent, asAttachment, downloadName, ttlSeconds and userGroups (the
caller-groups snapshot); every item record-download attempts carries
exactly downloadId, s3Key, versionId, requestedBy, requestedAt,
asAttachment, downloadName, ttlSeconds and requesterGroups holding the
lowercased caller-groups snapshot. -/
theorem c9_audit_record_fields :
    (∀ (w : DnWorld) (e : DnEvent) (item : Item),
      (presignDownloadHandler w e).2.historyAttempted = some item →
      item.map Prod.fst = [kDownloadId, kS3Key, kVersionId, kRequestedBy,
        kRequestedAt, kIp, kUserAgent, kAsAttachment, kDownloadName,
        kTtlSeconds, kUserGroups] ∧
      item.getLast? = some (kUserGroups,
        .arr ((cognitoInfoU e.claims).groups.map JVal.s))) ∧
    (∀ (w : RdWorld) (e : RdEvent) (item : Item) (c : Claims),
      (e.jwtClaims = none ∧ c = e.claims) ∨ e.jwtClaims = some c →
      (recordDownloadHandler w e).2.putAttempted = some item →
      item.map Prod.fst = [kDownloadId, kS3Key, kVersionId, kRequestedBy,
        kRequestedAt, kAsAttachment, kDownloadName, kTtlSeconds,
        kRequesterGroups] ∧
      item.getLast? = some (kRequesterGroups,
        .arr (List.map JVal.s (List.map lowerStr (cognitoInfoRD c).groups)))) := by
  constructor
  · intro w e item h
    simp only [presignDownloadHandler, dnIssue] at h
    repeat' split at h
    all_goals
      simp only [noDnEffects, Option.some.injEq] at h
    all_goals
      first
      | exact absurd h (by simp)
      | (rw [← h]; exact ⟨by simp, by simp [List.getLast?]⟩)
  · intro w e item c hjwt h
    rcases hjwt with ⟨hj, hc⟩ | hj
    · subst hc
      simp only [recordDownloadHandler, hj] at h
      repeat' split at h
      all_goals
        simp only [noRdEffects, Option.some.injEq] at h
      all_goals
        first
        | exact Option.noConfusion h
        | (subst h; exact ⟨rfl, rfl⟩)
    · simp only [recordDownloadHandler, hj] at h
      repeat' split at h
      all_goals
        simp only [noRdEffects, Option.some.injEq] at h
      all_goals
        first
        | exact Option.noConfusion h
        | (subst h; exact ⟨rfl, rfl⟩)

/-- Witness for C9: the key list of the audit item of one successful
issue-download-url run. -/
theorem c9_witness :
    ((presignDownloadHandler ⟨true, 900, .ok, sUrlEx, sUuidEx, sNowEx, true⟩
      ⟨viewerClaims, some ⟨some sKeyEx, none, none, none⟩,
        none⟩).2.historyAttempted.getD []).map Prod.fst =
      [kDownloadId, kS3Key, kVersionId, kRequestedBy, kRequestedAt, kIp,
        kUserAgent, kAsAttachment, kDownloadName, kTtlSeconds, kUserGroups] :=
  (c9_audit_record_fields.1
    ⟨true, 900, .ok, sUrlEx, sUuidEx, sNowEx, true⟩
    ⟨viewerClaims, some ⟨some sKeyEx, none, none, none⟩, none⟩
    ((presignDownloadHandler ⟨true, 900, .ok, sUrlEx, sUuidEx, sNowEx, true⟩
      ⟨viewerClaims, some ⟨some sKeyEx, none, none, none⟩,
        none⟩).2.historyAttempted.getD []) (by rfl)).1
